import Mathlib

/-!
Verification of the http-load-tester load engine.

The definitions below are shallow embeddings of the Go source:
the result-aggregation algebra (`AggregateResult.add`, `AggregateResult.merge`),
the response classifier (`expectedResponseData.isValid`), the baseline recording
of `Tester.Init`, the random URL selection (`randomURL`), the per-stage halting
decision of `stressTestWithConcurrency`, the ramp controller of `main`, and the
URL-list assembly from the `--paths` flag.  Durations are modelled as natural
numbers of time units; Go `int` values that can go negative are modelled as `Int`;
Go maps are modelled as association lists (only sums and per-key lookups matter
here); fallible operations return `Option`/`Except`.
-/

/-- One request outcome, mirroring `urlResult` in `load/tester.go`:
validity flag, bytes received, and measured latency. -/
structure urlResult where
  isValid : Bool
  bytesReceived : Nat
  latency : Nat
deriving Repr, DecidableEq

/-- Aggregate statistics for one bucket of fetches, mirroring `AggregateResult`
in `load/tester.go`. -/
structure AggregateResult where
  NumCalls : Nat
  TotalBytesReceived : Nat
  TotalLatency : Nat
  MaxLatency : Nat
  MinLatency : Nat
deriving Repr, DecidableEq

/-- The zero value of `AggregateResult`, as produced by Go's zero initialization. -/
def AggregateResult.empty : AggregateResult := ⟨0, 0, 0, 0, 0⟩

/-- `AggregateResult.merge` from `load/tester.go`: pairwise sums of counts, bytes
and latency; max of maxima; and the source's condition
`other.MinLatency < r.MinLatency || r.MinLatency == 0` for the minimum. -/
def AggregateResult.merge (r other : AggregateResult) : AggregateResult where
  NumCalls := r.NumCalls + other.NumCalls
  TotalBytesReceived := r.TotalBytesReceived + other.TotalBytesReceived
  TotalLatency := r.TotalLatency + other.TotalLatency
  MaxLatency := if other.MaxLatency > r.MaxLatency then other.MaxLatency else r.MaxLatency
  MinLatency :=
    if other.MinLatency < r.MinLatency ∨ r.MinLatency = 0 then other.MinLatency
    else r.MinLatency

/-- `AggregateResult.add` from `load/tester.go`: one more call, sums updated,
max updated, and the zero-means-unset rule for the minimum. -/
def AggregateResult.add (r : AggregateResult) (toAdd : urlResult) : AggregateResult where
  NumCalls := r.NumCalls + 1
  TotalBytesReceived := r.TotalBytesReceived + toAdd.bytesReceived
  TotalLatency := r.TotalLatency + toAdd.latency
  MaxLatency := if toAdd.latency > r.MaxLatency then toAdd.latency else r.MaxLatency
  MinLatency :=
    if toAdd.latency < r.MinLatency ∨ r.MinLatency = 0 then toAdd.latency
    else r.MinLatency

/-- Expected-response baseline for one URL, mirroring `expectedResponseData`
in `load/tester.go`.  `MinLength` and `MaxLength` are Go `int`s and can be
negative, hence `Int`. -/
structure expectedResponseData where
  StatusCode : Int
  MinLength : Int
  MaxLength : Int
deriving Repr, DecidableEq

/-- The classifier `expectedResponseData.isValid` from `load/tester.go`:
`code == exp.StatusCode && bodyLen >= exp.MinLength && bodyLen <= exp.MaxLength`. -/
def expectedResponseData.isValid (exp : expectedResponseData) (code : Int) (bodyLen : Nat) : Bool :=
  decide (code = exp.StatusCode) && decide ((bodyLen : Int) ≥ exp.MinLength) &&
    decide ((bodyLen : Int) ≤ exp.MaxLength)

/-- The baseline recorded by `Tester.Init` for an observed probe response
(`load/tester.go`): `MinLength = bodyLen - 10`, `MaxLength = bodyLen + 10`,
with no clamping of the minimum. -/
def initExpectedResponse (status : Int) (bodyLen : Nat) : expectedResponseData where
  StatusCode := status
  MinLength := (bodyLen : Int) - 10
  MaxLength := (bodyLen : Int) + 10

/-- Modelled from the spec: the clamped baseline
`min_body_len = max(0, observed_len − 10)` stated in section 4.1 of the spec,
for comparison with the source's `initExpectedResponse`. -/
def initExpectedResponseSpec (status : Int) (bodyLen : Nat) : expectedResponseData where
  StatusCode := status
  MinLength := max 0 ((bodyLen : Int) - 10)
  MaxLength := (bodyLen : Int) + 10

/-- C1: the empty `AggregateResult` fails to be a right identity for `merge`.
At the concrete aggregate `x = ⟨1, 10, 5, 5, 5⟩` (one call, ten bytes, latency
five), `merge x empty` zeroes the real minimum latency: the source condition
`other.MinLatency < r.MinLatency || r.MinLatency == 0` is true when the operand
is empty and the receiver has a non-zero minimum, so the empty operand clobbers
it.  The left identity `merge empty x` does hold at this input. -/
theorem merge_with_empty_operand_clobbers_min :
    (AggregateResult.merge ⟨1, 10, 5, 5, 5⟩ AggregateResult.empty).MinLatency = 0
    ∧ AggregateResult.merge ⟨1, 10, 5, 5, 5⟩ AggregateResult.empty ≠ ⟨1, 10, 5, 5, 5⟩
    ∧ AggregateResult.merge AggregateResult.empty ⟨1, 10, 5, 5, 5⟩ = ⟨1, 10, 5, 5, 5⟩ := by
  refine ⟨rfl, ?_, rfl⟩
  decide

/-- C5: the classifier marks a response valid iff the status code equals the
baseline status and the body length lies inclusively between `MinLength` and
`MaxLength`; a length exactly at either bound (with matching status) classifies
as success, and a length one byte outside either bound classifies as failure. -/
theorem isValid_iff_status_and_body_bounds (exp : expectedResponseData) (code : Int)
    (bodyLen : Nat) :
    (exp.isValid code bodyLen = true ↔
        code = exp.StatusCode ∧ exp.MinLength ≤ (bodyLen : Int) ∧ (bodyLen : Int) ≤ exp.MaxLength)
    ∧ ((bodyLen : Int) = exp.MinLength → exp.MinLength ≤ exp.MaxLength →
        exp.isValid exp.StatusCode bodyLen = true)
    ∧ ((bodyLen : Int) = exp.MaxLength → exp.MinLength ≤ exp.MaxLength →
        exp.isValid exp.StatusCode bodyLen = true)
    ∧ ((bodyLen : Int) = exp.MinLength - 1 → exp.isValid code bodyLen = false)
    ∧ ((bodyLen : Int) = exp.MaxLength + 1 → exp.isValid code bodyLen = false) := by
  refine ⟨?_, ?_, ?_, ?_, ?_⟩
  · simp [expectedResponseData.isValid, ge_iff_le, and_assoc]
  · intro h1 h2
    simp [expectedResponseData.isValid, ge_iff_le]
    omega
  · intro h1 h2
    simp [expectedResponseData.isValid, ge_iff_le]
    omega
  · intro h1
    simp [expectedResponseData.isValid, ge_iff_le]
    intro _ h2
    omega
  · intro h1
    simp [expectedResponseData.isValid, ge_iff_le]
    intro _ h2
    omega

/-- Witness for C5 at the concrete baseline `⟨200, 90, 110⟩`: body lengths 90
and 110 classify as success, 89 and 111 as failure. -/
theorem isValid_bounds_witness :
    (expectedResponseData.isValid ⟨200, 90, 110⟩ 200 90 = true)
    ∧ (expectedResponseData.isValid ⟨200, 90, 110⟩ 200 110 = true)
    ∧ (expectedResponseData.isValid ⟨200, 90, 110⟩ 200 89 = false)
    ∧ (expectedResponseData.isValid ⟨200, 90, 110⟩ 200 111 = false) :=
  ⟨(isValid_iff_status_and_body_bounds ⟨200, 90, 110⟩ 200 90).2.1 (by decide) (by decide),
   (isValid_iff_status_and_body_bounds ⟨200, 90, 110⟩ 200 110).2.2.1 (by decide) (by decide),
   (isValid_iff_status_and_body_bounds ⟨200, 90, 110⟩ 200 89).2.2.2.1 (by decide),
   (isValid_iff_status_and_body_bounds ⟨200, 90, 110⟩ 200 111).2.2.2.2 (by decide)⟩

/-- C6 counterexample: for an observed baseline body of 0 bytes, the recorded
minimum body length is `-10`, not `max(0, 0 − 10) = 0`, and it is negative. -/
theorem min_body_len_not_clamped :
    (initExpectedResponse 200 0).MinLength = -10
    ∧ (initExpectedResponse 200 0).MinLength ≠ max 0 ((0 : Int) - 10)
    ∧ ¬ (0 : Int) ≤ (initExpectedResponse 200 0).MinLength := by
  refine ⟨rfl, ?_, ?_⟩ <;> decide

/-- C6 amended: the recorded baseline is `MinLength = observed − 10` with no
clamping (so it is negative whenever the observed body is shorter than 10 bytes)
and `MaxLength = observed + 10`; `MinLength ≤ MaxLength` always holds, and the
classifier accepts exactly the same responses as the spec's clamped baseline,
because body lengths are non-negative. -/
theorem baseline_bounds_amended (status : Int) (bodyLen : Nat) :
    (initExpectedResponse status bodyLen).MinLength = (bodyLen : Int) - 10
    ∧ (initExpectedResponse status bodyLen).MaxLength = (bodyLen : Int) + 10
    ∧ (initExpectedResponse status bodyLen).MinLength
        ≤ (initExpectedResponse status bodyLen).MaxLength
    ∧ ∀ (code : Int) (b : Nat),
        (initExpectedResponse status bodyLen).isValid code b
          = (initExpectedResponseSpec status bodyLen).isValid code b := by
  refine ⟨rfl, rfl, by simp [initExpectedResponse]; omega, ?_⟩
  intro code b
  simp only [expectedResponseData.isValid, initExpectedResponse, initExpectedResponseSpec]
  congr 2
  apply decide_eq_decide.mpr
  constructor
  · intro h
    exact max_le_iff.mpr ⟨Int.natCast_nonneg b, h⟩
  · intro h
    exact (max_le_iff.mp h).2

/-- Per-URL pair of success and failure buckets, mirroring `ResultWithValidity`. -/
structure ResultWithValidity where
  Successes : AggregateResult
  Failures : AggregateResult
deriving Repr, DecidableEq

/-- Result of one stress stage, mirroring `StressResult`; the Go map from URL to
`ResultWithValidity` is modelled as an association list. -/
structure StressResult where
  ResultsByUrl : List (String × ResultWithValidity)
deriving Repr, DecidableEq

/-- Total number of successful calls over all URLs of a stage, as summed by
`stressTestWithConcurrency` in `main`. -/
def StressResult.totalSuccess (r : StressResult) : Nat :=
  (r.ResultsByUrl.map (fun p => p.2.Successes.NumCalls)).sum

/-- Total number of failed calls over all URLs of a stage, as summed by
`stressTestWithConcurrency` in `main`. -/
def StressResult.totalFailure (r : StressResult) : Nat :=
  (r.ResultsByUrl.map (fun p => p.2.Failures.NumCalls)).sum

/-- Which branch of `stressTestWithConcurrency` fires after a stage: the
"no successful calls" log, the error-rate-breach log, or continuation. -/
inductive StageBranch where
  | noSuccess
  | thresholdBreach
  | continueRamp
deriving Repr, DecidableEq

/-- The post-stage decision of `stressTestWithConcurrency` in `main`: if the
success total is zero, halt via the "no successful calls" branch; otherwise
compare `numFailures / numSuccess` (denominator is the success count) against
the error threshold. -/
def stageDecision (errThreshold : ℚ) (r : StressResult) : StageBranch :=
  if r.totalSuccess = 0 then StageBranch.noSuccess
  else if (r.totalFailure : ℚ) / (r.totalSuccess : ℚ) > errThreshold then
    StageBranch.thresholdBreach
  else StageBranch.continueRamp

/-- The boolean returned by `stressTestWithConcurrency`: true exactly when the
ramp should continue. -/
def stressShouldContinue (errThreshold : ℚ) (r : StressResult) : Bool :=
  match stageDecision errThreshold r with
  | StageBranch.continueRamp => true
  | _ => false

/-- C2: the ramp halts after a stage iff the stage had zero successes or the
failure-to-success ratio exceeds the threshold; the denominator is the success
count, and a stage with zero successes takes the "no successful calls" branch
(never the breach branch), regardless of its failure count. -/
theorem stress_halts_iff_no_success_or_breach (E : ℚ) (r : StressResult) :
    (stressShouldContinue E r = false ↔
        r.totalSuccess = 0 ∨ E < (r.totalFailure : ℚ) / (r.totalSuccess : ℚ))
    ∧ (r.totalSuccess = 0 → stageDecision E r = StageBranch.noSuccess) := by
  constructor
  · unfold stressShouldContinue stageDecision
    split_ifs with h1 h2 <;> simp_all
  · intro h
    unfold stageDecision
    rw [if_pos h]

/-- Witness for C2: with threshold `1/20` and a stage holding three failures and
zero successes for its only URL, the decision is the "no successful calls"
branch and the ramp halts. -/
theorem stress_halts_witness :
    stageDecision (1 / 20 : ℚ)
        ⟨[("http://h/a", ⟨AggregateResult.empty, ⟨3, 30, 9, 4, 2⟩⟩)]⟩
      = StageBranch.noSuccess
    ∧ stressShouldContinue (1 / 20 : ℚ)
        ⟨[("http://h/a", ⟨AggregateResult.empty, ⟨3, 30, 9, 4, 2⟩⟩)]⟩ = false :=
  ⟨(stress_halts_iff_no_success_or_breach (1 / 20 : ℚ)
      ⟨[("http://h/a", ⟨AggregateResult.empty, ⟨3, 30, 9, 4, 2⟩⟩)]⟩).2 (by decide),
   ((stress_halts_iff_no_success_or_breach (1 / 20 : ℚ)
      ⟨[("http://h/a", ⟨AggregateResult.empty, ⟨3, 30, 9, 4, 2⟩⟩)]⟩).1).mpr
     (Or.inl (by decide))⟩

/-- The two ramp styles accepted by the `--ramp_style` flag. -/
inductive RampStyle where
  | linear
  | doubling
deriving Repr, DecidableEq

/-- `increaseConcurrency` from `main`: `current + step` for linear ramps,
`current + current` for doubling ramps. -/
def increaseConcurrency (style : RampStyle) (step current : Nat) : Nat :=
  match style with
  | RampStyle.linear => current + step
  | RampStyle.doubling => current + current

/-- The main ramp loop of `main`: starting from concurrency `c` with last-run
value `last` and continue-flag `sc`, run stages while `c ≤ cap ∧ sc`, where each
stage updates the flag via `cont` and records `last := c`.  Returns the list of
stage concurrencies together with the final `last` and flag.  `fuel` bounds the
iteration count; `runRamp` supplies enough fuel for every terminating
configuration of the Go loop. -/
def rampLoop (style : RampStyle) (step cap : Nat) (cont : Nat → Bool) :
    Nat → Nat → Nat → Bool → List Nat × Nat × Bool
  | 0, _, last, sc => ([], last, sc)
  | fuel + 1, c, last, sc =>
    if c ≤ cap ∧ sc then
      let res := rampLoop style step cap cont fuel (increaseConcurrency style step c) c (cont c)
      (c :: res.1, res.2.1, res.2.2)
    else ([], last, sc)

/-- The full ramp of `main`: loop from concurrency 2 (with `last = 1`), then, if
the loop was not halted early and the last stage was not the cap, run one final
stage at the cap. -/
def runRamp (style : RampStyle) (step cap : Nat) (cont : Nat → Bool) : List Nat :=
  let res := rampLoop style step cap cont (cap + 1) 2 1 true
  if res.2.2 ∧ res.2.1 ≠ cap then res.1 ++ [cap] else res.1

/-- C3: with doubling style and cap 8 the stages are 2, 4, 8; with cap 9 they
are 2, 4, 8, 9; with linear style, step 5 and cap 20 they are 2, 7, 12, 17, 20;
and in general, whenever the loop ends with the continue flag still true and a
last stage different from the cap, exactly one extra stage at the cap is
appended, and otherwise nothing is appended. -/
theorem ramp_concurrency_sequence :
    runRamp RampStyle.doubling 5 8 (fun _ => true) = [2, 4, 8]
    ∧ runRamp RampStyle.doubling 5 9 (fun _ => true) = [2, 4, 8, 9]
    ∧ runRamp RampStyle.linear 5 20 (fun _ => true) = [2, 7, 12, 17, 20]
    ∧ ∀ (style : RampStyle) (step cap : Nat) (cont : Nat → Bool)
        (stages : List Nat) (last : Nat) (sc : Bool),
        rampLoop style step cap cont (cap + 1) 2 1 true = (stages, last, sc) →
        ((sc = true → last ≠ cap → runRamp style step cap cont = stages ++ [cap])
          ∧ (sc = true → last = cap → runRamp style step cap cont = stages)
          ∧ (sc = false → runRamp style step cap cont = stages)) := by
  refine ⟨by decide, by decide, by decide, ?_⟩
  intro style step cap cont stages last sc h
  refine ⟨?_, ?_, ?_⟩
  · intro h1 h2
    simp [runRamp, h, h1, h2]
  · intro h1 h2
    simp [runRamp, h, h1, h2]
  · intro h1
    simp [runRamp, h, h1]

/-- Witness for C3's general clause: for the doubling ramp with cap 9, the loop
yields stages `[2, 4, 8]` with `last = 8 ≠ 9` and the flag still true, so the
full ramp appends exactly one stage at the cap. -/
theorem ramp_concurrency_sequence_witness :
    runRamp RampStyle.doubling 5 9 (fun _ => true) = [2, 4, 8] ++ [9] :=
  (ramp_concurrency_sequence.2.2.2 RampStyle.doubling 5 9 (fun _ => true)
      [2, 4, 8] 8 true (by decide)).1 rfl (by decide)

/-- `Tester.randomURL` from `load/tester.go`: `i := rand.Int() % n` followed by
`t.urls[i]`, where `x` models the random draw.  Go panics with a division by
zero when the URL list is empty; that failure is modelled as `none`. -/
def randomURL (urls : List String) (x : Nat) : Option String :=
  if h : 0 < urls.length then some (urls.get ⟨x % urls.length, Nat.mod_lt x h⟩)
  else none

/-- C10: for a non-empty URL list, `randomURL` never hits the modulo-by-zero
failure and always returns the element at index `x % len(urls)`, which is an
element of the list; with an empty list it reaches the modulo-by-zero error. -/
theorem randomURL_safe (urls : List String) (x : Nat) :
    (0 < urls.length →
        ∃ h : x % urls.length < urls.length,
          randomURL urls x = some (urls.get ⟨x % urls.length, h⟩)
          ∧ urls.get ⟨x % urls.length, h⟩ ∈ urls)
    ∧ (urls.length = 0 → randomURL urls x = none) := by
  constructor
  · intro h
    exact ⟨Nat.mod_lt x h, by rw [randomURL, dif_pos h], urls.get_mem _ _⟩
  · intro h
    rw [randomURL, dif_neg (by omega)]

/-- Witness for C10 at `urls = ["a", "b", "c"]`, `x = 7` (index `7 % 3 = 1`),
and at the empty list. -/
theorem randomURL_safe_witness :
    (∃ h : 7 % (["a", "b", "c"] : List String).length < (["a", "b", "c"] : List String).length,
        randomURL ["a", "b", "c"] 7
          = some ((["a", "b", "c"] : List String).get ⟨7 % (["a", "b", "c"] : List String).length, h⟩)
        ∧ (["a", "b", "c"] : List String).get ⟨7 % (["a", "b", "c"] : List String).length, h⟩
            ∈ (["a", "b", "c"] : List String))
    ∧ randomURL ([] : List String) 7 = none :=
  ⟨(randomURL_safe ["a", "b", "c"] 7).1 (by decide),
   (randomURL_safe ([] : List String) 7).2 rfl⟩

/-- The error outcomes of `Tester.Init`: an immediate transport failure on one
probe (`failed to fetch url ...`), or `all requests failed` when no probe
returned a 2xx status. -/
inductive InitError where
  | fetchError (url : String)
  | noSuccessfulProbe
deriving Repr, DecidableEq

/-- The 2xx test of `Tester.Init`:
`resp.StatusCode() >= 200 && resp.StatusCode() < 300`. -/
def isSuccessStatus (code : Int) : Bool :=
  decide (200 ≤ code) && decide (code < 300)

/-- The probe loop of `Tester.Init`: for each URL in order, ask the probe
(`none` models a transport-level error, `some (status, bodyLen)` a completed
response).  A transport error aborts immediately; otherwise the baseline is
recorded and the `atLeastOneSucceeded` flag is or-ed with the 2xx test. -/
def initLoop (probe : String → Option (Int × Nat)) :
    List String → Bool → Except InitError (List (String × expectedResponseData) × Bool)
  | [], atLeastOneSucceeded => Except.ok ([], atLeastOneSucceeded)
  | u :: rest, atLeastOneSucceeded =>
    match probe u with
    | none => Except.error (InitError.fetchError u)
    | some (status, bodyLen) =>
      match initLoop probe rest (atLeastOneSucceeded || isSuccessStatus status) with
      | Except.error e => Except.error e
      | Except.ok (entries, flag) =>
        Except.ok ((u, initExpectedResponse status bodyLen) :: entries, flag)

/-- `Tester.Init` from `load/tester.go`: run the probe loop starting with
`atLeastOneSucceeded = false`; if it finishes with the flag still false, fail
with the `all requests failed` error. -/
def runInit (probe : String → Option (Int × Nat)) (urls : List String) :
    Except InitError (List (String × expectedResponseData)) :=
  match initLoop probe urls false with
  | Except.error e => Except.error e
  | Except.ok (entries, atLeastOneSucceeded) =>
    if atLeastOneSucceeded then Except.ok entries else Except.error InitError.noSuccessfulProbe

/-- Whether the probe reports a completed 2xx response for a URL. -/
def probeIs2xx (probe : String → Option (Int × Nat)) (u : String) : Bool :=
  match probe u with
  | some (status, _) => isSuccessStatus status
  | none => false

lemma initLoop_all_some (probe : String → Option (Int × Nat)) :
    ∀ (urls : List String) (b : Bool), (∀ u ∈ urls, (probe u).isSome) →
      ∃ entries, initLoop probe urls b = Except.ok (entries, b || urls.any (probeIs2xx probe)) := by
  intro urls
  induction urls with
  | nil =>
    intro b _
    exact ⟨[], by simp [initLoop]⟩
  | cons u rest ih =>
    intro b h
    have hu : (probe u).isSome := h u (List.mem_cons_self u rest)
    match hpu : probe u with
    | none => rw [hpu] at hu; simp at hu
    | some (status, bodyLen) =>
      obtain ⟨entries, he⟩ :=
        ih (b || isSuccessStatus status) (fun v hv => h v (List.mem_cons_of_mem u hv))
      refine ⟨(u, initExpectedResponse status bodyLen) :: entries, ?_⟩
      simp only [initLoop, hpu, he]
      have : probeIs2xx probe u = isSuccessStatus status := by
        simp [probeIs2xx, hpu]
      simp [List.any_cons, this, Bool.or_assoc]

lemma initLoop_first_error (probe : String → Option (Int × Nat)) (u : String)
    (hu : probe u = none) :
    ∀ (pre post : List String) (b : Bool), (∀ v ∈ pre, (probe v).isSome) →
      initLoop probe (pre ++ u :: post) b = Except.error (InitError.fetchError u) := by
  intro pre
  induction pre with
  | nil =>
    intro post b _
    simp [initLoop, hu]
  | cons v pre ih =>
    intro post b h
    have hv : (probe v).isSome := h v (List.mem_cons_self v pre)
    match hpv : probe v with
    | none => rw [hpv] at hv; simp at hv
    | some (status, bodyLen) =>
      simp only [List.cons_append, initLoop, hpv, List.append_eq]
      rw [ih post (b || isSuccessStatus status) (fun w hw => h w (List.mem_cons_of_mem v hw))]

/-- C4: `Tester.Init` fails with the fetch error of the first URL whose probe
hits a transport-level error; when every probe completes but none is 2xx it
fails with the `all requests failed` (no successful probe) error; and when every
probe completes and at least one is 2xx it succeeds, so non-2xx responses alone
never fail `Init`. -/
theorem init_error_semantics (probe : String → Option (Int × Nat)) (urls : List String) :
    (∀ pre u post, urls = pre ++ u :: post → (∀ v ∈ pre, (probe v).isSome) →
        probe u = none → runInit probe urls = Except.error (InitError.fetchError u))
    ∧ ((∀ u ∈ urls, (probe u).isSome) → (∀ u ∈ urls, probeIs2xx probe u = false) →
        runInit probe urls = Except.error InitError.noSuccessfulProbe)
    ∧ ((∀ u ∈ urls, (probe u).isSome) → (∃ u ∈ urls, probeIs2xx probe u = true) →
        ∃ entries, runInit probe urls = Except.ok entries) := by
  refine ⟨?_, ?_, ?_⟩
  · intro pre u post hurls hpre hu
    rw [hurls, runInit, initLoop_first_error probe u hu pre post false hpre]
  · intro hsome hno2xx
    obtain ⟨entries, he⟩ := initLoop_all_some probe urls false hsome
    have hany : urls.any (probeIs2xx probe) = false := by
      rw [List.any_eq_false]
      intro u hu
      simp [hno2xx u hu]
    rw [runInit, he, hany]
    simp
  · intro hsome h2xx
    obtain ⟨entries, he⟩ := initLoop_all_some probe urls false hsome
    have hany : urls.any (probeIs2xx probe) = true := by
      rw [List.any_eq_true]
      obtain ⟨u, hu, h2⟩ := h2xx
      exact ⟨u, hu, h2⟩
    rw [runInit, he, hany]
    exact ⟨entries, by simp⟩

/-- Witness for C4: probing `["a", "b"]` where `"a"` completes with a 404 and
`"b"` with a 200 succeeds, since one URL returned a 2xx response. -/
theorem init_error_semantics_witness :
    ∃ entries,
      runInit (fun u => if u = "a" then some ((404 : Int), 5) else some ((200 : Int), 7))
          ["a", "b"]
        = Except.ok entries :=
  (init_error_semantics
      (fun u => if u = "a" then some ((404 : Int), 5) else some ((200 : Int), 7))
      ["a", "b"]).2.2 (by decide) ⟨"b", by decide, by decide⟩

/-- Invariant 1 of the spec's data model: `num_calls == 0` iff both the total
latency and the total byte count are zero. -/
abbrev aggInv1 (r : AggregateResult) : Prop :=
  r.NumCalls = 0 ↔ (r.TotalLatency = 0 ∧ r.TotalBytesReceived = 0)

/-- Invariant 2 of the spec's data model: whenever `num_calls > 0`, the average
latency lies between the recorded minimum and maximum. -/
abbrev aggInv2 (r : AggregateResult) : Prop :=
  0 < r.NumCalls →
    (r.MinLatency : ℚ) ≤ (r.TotalLatency : ℚ) / (r.NumCalls : ℚ)
    ∧ (r.TotalLatency : ℚ) / (r.NumCalls : ℚ) ≤ (r.MaxLatency : ℚ)

/-- The aggregates reachable from the empty value by any finite sequence of
`add` (with arbitrary outcomes) and `merge` (with reachable operands). -/
inductive Reachable : AggregateResult → Prop
  | empty : Reachable AggregateResult.empty
  | add {r : AggregateResult} (o : urlResult) : Reachable r → Reachable (r.add o)
  | merge {r s : AggregateResult} : Reachable r → Reachable s → Reachable (r.merge s)

/-- The aggregates reachable from the empty value when every added outcome has
positive latency and every merge operand has at least one call. -/
inductive ReachablePos : AggregateResult → Prop
  | empty : ReachablePos AggregateResult.empty
  | add {r : AggregateResult} (o : urlResult) (hlat : 0 < o.latency) :
      ReachablePos r → ReachablePos (r.add o)
  | merge {r s : AggregateResult} :
      ReachablePos r → ReachablePos s → 0 < s.NumCalls → ReachablePos (r.merge s)

/-- C7 counterexample: the invariants do not hold over the full reachable set.
Adding a single zero-latency, zero-byte outcome to the empty aggregate yields a
reachable state with one call but zero total latency and bytes, violating
invariant 1; and the sequence add-latency-1, merge-with-empty, add-latency-5
yields a reachable state `⟨2, 10, 6, 5, 5⟩` whose minimum latency 5 exceeds its
average latency 3, violating invariant 2 (the merge with the empty operand
zeroed the minimum, and the next add reset it to the new sample). -/
theorem aggregate_invariants_fail_on_reachable :
    (Reachable (AggregateResult.add AggregateResult.empty ⟨true, 0, 0⟩)
      ∧ ¬ aggInv1 (AggregateResult.add AggregateResult.empty ⟨true, 0, 0⟩))
    ∧ (Reachable
        (AggregateResult.add
          (AggregateResult.merge (AggregateResult.add AggregateResult.empty ⟨true, 5, 1⟩)
            AggregateResult.empty)
          ⟨true, 5, 5⟩)
      ∧ ¬ aggInv2 (AggregateResult.add
          (AggregateResult.merge (AggregateResult.add AggregateResult.empty ⟨true, 5, 1⟩)
            AggregateResult.empty)
          ⟨true, 5, 5⟩)) :=
  ⟨⟨Reachable.add _ Reachable.empty, by decide⟩,
   ⟨Reachable.add _ (Reachable.merge (Reachable.add _ Reachable.empty) Reachable.empty), by
      have he : AggregateResult.add
          (AggregateResult.merge (AggregateResult.add AggregateResult.empty ⟨true, 5, 1⟩)
            AggregateResult.empty)
          ⟨true, 5, 5⟩ = (⟨2, 10, 6, 5, 5⟩ : AggregateResult) := rfl
      rw [he]
      intro hinv
      obtain ⟨hlo, _⟩ := hinv (by norm_num : (0 : Nat) < 2)
      have hlo2 : ((5 : Nat) : ℚ) ≤ ((6 : Nat) : ℚ) / ((2 : Nat) : ℚ) := hlo
      norm_num at hlo2⟩⟩

lemma reachablePos_bounds {r : AggregateResult} (h : ReachablePos r) :
    (r.NumCalls = 0 → r = AggregateResult.empty)
    ∧ (0 < r.NumCalls →
        0 < r.MinLatency
        ∧ r.MinLatency * r.NumCalls ≤ r.TotalLatency
        ∧ r.TotalLatency ≤ r.MaxLatency * r.NumCalls) := by
  induction h with
  | empty => exact ⟨fun _ => rfl, fun h => absurd h (by decide)⟩
  | @add r o hlat hr ih =>
    constructor
    · intro h
      exact absurd (show r.NumCalls + 1 = 0 from h) (by omega)
    · intro _
      have hNum : (r.add o).NumCalls = r.NumCalls + 1 := rfl
      have hTot : (r.add o).TotalLatency = r.TotalLatency + o.latency := rfl
      have hMin : (r.add o).MinLatency
          = if o.latency < r.MinLatency ∨ r.MinLatency = 0 then o.latency else r.MinLatency := rfl
      have hMax : (r.add o).MaxLatency
          = if o.latency > r.MaxLatency then o.latency else r.MaxLatency := rfl
      rw [hNum, hTot, hMin, hMax]
      rcases Nat.eq_zero_or_pos r.NumCalls with h0 | hpos
      · have he : r = AggregateResult.empty := ih.1 h0
        subst he
        simp [AggregateResult.empty, hlat]
      · obtain ⟨hmin, hlow, hup⟩ := ih.2 hpos
        refine ⟨?_, ?_, ?_⟩
        · by_cases hc : o.latency < r.MinLatency ∨ r.MinLatency = 0
          · rw [if_pos hc]
            exact hlat
          · rw [if_neg hc]
            exact hmin
        · by_cases hc : o.latency < r.MinLatency ∨ r.MinLatency = 0
          · rw [if_pos hc]
            have hco : o.latency ≤ r.MinLatency := by
              rcases hc with h | h
              · exact le_of_lt h
              · exact absurd h (by omega)
            calc o.latency * (r.NumCalls + 1)
                = o.latency * r.NumCalls + o.latency := by ring
              _ ≤ r.MinLatency * r.NumCalls + o.latency :=
                  Nat.add_le_add_right (Nat.mul_le_mul_right _ hco) _
              _ ≤ r.TotalLatency + o.latency := Nat.add_le_add_right hlow _
          · rw [if_neg hc]
            push_neg at hc
            calc r.MinLatency * (r.NumCalls + 1)
                = r.MinLatency * r.NumCalls + r.MinLatency := by ring
              _ ≤ r.TotalLatency + o.latency := Nat.add_le_add hlow hc.1
        · by_cases hm : o.latency > r.MaxLatency
          · rw [if_pos hm]
            calc r.TotalLatency + o.latency
                ≤ r.MaxLatency * r.NumCalls + o.latency := Nat.add_le_add_right hup _
              _ ≤ o.latency * r.NumCalls + o.latency :=
                  Nat.add_le_add_right (Nat.mul_le_mul_right _ (le_of_lt hm)) _
              _ = o.latency * (r.NumCalls + 1) := by ring
          · rw [if_neg hm]
            push_neg at hm
            calc r.TotalLatency + o.latency
                ≤ r.MaxLatency * r.NumCalls + r.MaxLatency := Nat.add_le_add hup hm
              _ = r.MaxLatency * (r.NumCalls + 1) := by ring
  | @merge r s hr hs hsnum ihr ihs =>
    obtain ⟨hsmin, hslow, hsup⟩ := ihs.2 hsnum
    have hstot : 0 < s.TotalLatency :=
      lt_of_lt_of_le (Nat.mul_pos hsmin hsnum) hslow
    have hsmax : 0 < s.MaxLatency := by
      rcases Nat.eq_zero_or_pos s.MaxLatency with h | h
      · rw [h, zero_mul] at hsup
        omega
      · exact h
    constructor
    · intro h
      exact absurd (show r.NumCalls + s.NumCalls = 0 from h) (by omega)
    · intro _
      have hNum : (r.merge s).NumCalls = r.NumCalls + s.NumCalls := rfl
      have hTot : (r.merge s).TotalLatency = r.TotalLatency + s.TotalLatency := rfl
      have hMin : (r.merge s).MinLatency
          = if s.MinLatency < r.MinLatency ∨ r.MinLatency = 0 then s.MinLatency
            else r.MinLatency := rfl
      have hMax : (r.merge s).MaxLatency
          = if s.MaxLatency > r.MaxLatency then s.MaxLatency else r.MaxLatency := rfl
      rw [hNum, hTot, hMin, hMax]
      rcases Nat.eq_zero_or_pos r.NumCalls with h0 | hpos
      · have he : r = AggregateResult.empty := ihr.1 h0
        subst he
        simp only [AggregateResult.empty]
        simp [hsmax]
        exact ⟨hsmin, hslow, hsup⟩
      · obtain ⟨hrmin, hrlow, hrup⟩ := ihr.2 hpos
        refine ⟨?_, ?_, ?_⟩
        · by_cases hc : s.MinLatency < r.MinLatency ∨ r.MinLatency = 0
          · rw [if_pos hc]
            exact hsmin
          · rw [if_neg hc]
            exact hrmin
        · by_cases hc : s.MinLatency < r.MinLatency ∨ r.MinLatency = 0
          · rw [if_pos hc]
            have hcs : s.MinLatency ≤ r.MinLatency := by
              rcases hc with h | h
              · exact le_of_lt h
              · exact absurd h (by omega)
            calc s.MinLatency * (r.NumCalls + s.NumCalls)
                = s.MinLatency * r.NumCalls + s.MinLatency * s.NumCalls := by ring
              _ ≤ r.MinLatency * r.NumCalls + s.MinLatency * s.NumCalls :=
                  Nat.add_le_add_right (Nat.mul_le_mul_right _ hcs) _
              _ ≤ r.TotalLatency + s.TotalLatency := Nat.add_le_add hrlow hslow
          · rw [if_neg hc]
            push_neg at hc
            calc r.MinLatency * (r.NumCalls + s.NumCalls)
                = r.MinLatency * r.NumCalls + r.MinLatency * s.NumCalls := by ring
              _ ≤ r.TotalLatency + s.MinLatency * s.NumCalls :=
                  Nat.add_le_add hrlow (Nat.mul_le_mul_right _ hc.1)
              _ ≤ r.TotalLatency + s.TotalLatency := Nat.add_le_add_left hslow _
        · by_cases hm : s.MaxLatency > r.MaxLatency
          · rw [if_pos hm]
            calc r.TotalLatency + s.TotalLatency
                ≤ r.MaxLatency * r.NumCalls + s.MaxLatency * s.NumCalls :=
                  Nat.add_le_add hrup hsup
              _ ≤ s.MaxLatency * r.NumCalls + s.MaxLatency * s.NumCalls :=
                  Nat.add_le_add_right (Nat.mul_le_mul_right _ (le_of_lt hm)) _
              _ = s.MaxLatency * (r.NumCalls + s.NumCalls) := by ring
          · rw [if_neg hm]
            push_neg at hm
            calc r.TotalLatency + s.TotalLatency
                ≤ r.MaxLatency * r.NumCalls + r.MaxLatency * s.NumCalls :=
                  Nat.add_le_add hrup (le_trans hsup (Nat.mul_le_mul_right _ hm))
              _ = r.MaxLatency * (r.NumCalls + s.NumCalls) := by ring

/-- C7 amended: both invariants hold for every aggregate reachable from the
empty value when each added outcome has positive latency and each merge operand
has at least one call; the unrestricted claim fails (see the counterexample) on
zero-latency outcomes and on merges with an empty operand. -/
theorem aggregate_invariants_of_positive (r : AggregateResult) (h : ReachablePos r) :
    aggInv1 r ∧ aggInv2 r := by
  obtain ⟨hzero, hposf⟩ := reachablePos_bounds h
  constructor
  · constructor
    · intro h0
      rw [hzero h0]
      exact ⟨rfl, rfl⟩
    · rintro ⟨hl, hb⟩
      by_contra hne
      have hpos : 0 < r.NumCalls := Nat.pos_of_ne_zero hne
      obtain ⟨hmin, hlow, _⟩ := hposf hpos
      have h1 : 0 < r.MinLatency * r.NumCalls := Nat.mul_pos hmin hpos
      have h2 : 0 < r.TotalLatency := lt_of_lt_of_le h1 hlow
      omega
  · intro hpos
    obtain ⟨hmin, hlow, hup⟩ := hposf hpos
    have hq : (0 : ℚ) < (r.NumCalls : ℚ) := by exact_mod_cast hpos
    constructor
    · rw [le_div_iff₀ hq]
      exact_mod_cast hlow
    · rw [div_le_iff₀ hq]
      exact_mod_cast hup

/-- Witness for C7's amended theorem at the reachable aggregate obtained by
adding one outcome with latency 2 and 5 bytes to the empty value. -/
theorem aggregate_invariants_of_positive_witness :
    aggInv1 (AggregateResult.add AggregateResult.empty ⟨true, 5, 2⟩)
    ∧ aggInv2 (AggregateResult.add AggregateResult.empty ⟨true, 5, 2⟩) :=
  aggregate_invariants_of_positive _
    (ReachablePos.add ⟨true, 5, 2⟩ (by decide) ReachablePos.empty)

/-- Go's `strings.Split` for a one-character separator (the `--paths` flag uses
the single character `pathSeparator = "\\"`): splitting any string, including
the empty string, yields at least one (possibly empty) piece. -/
def splitChar (sep : Char) : List Char → List (List Char)
  | [] => [[]]
  | c :: rest =>
    if c = sep then [] :: splitChar sep rest
    else
      match splitChar sep rest with
      | [] => [[c]]
      | t :: ts => (c :: t) :: ts

lemma splitChar_ne_nil (sep : Char) (l : List Char) : splitChar sep l ≠ [] := by
  induction l with
  | nil => simp [splitChar]
  | cons c rest ih =>
    rw [splitChar]
    split
    · simp
    · split
      · simp
      · simp

/-- `constructURLs` from `main`: parse `host + p` for each path `p` in order,
failing on the first parse error (`parse` models `url.Parse` composed with
`u.String()`). -/
def constructURLs (parse : String → Option String) (host : String) :
    List String → Option (List String)
  | [] => some []
  | p :: rest =>
    match parse (host ++ p) with
    | none => none
    | some u =>
      match constructURLs parse host rest with
      | none => none
      | some us => some (u :: us)

lemma constructURLs_length (parse : String → Option String) (host : String) :
    ∀ (paths : List String) (us : List String),
      constructURLs parse host paths = some us → us.length = paths.length := by
  intro paths
  induction paths with
  | nil =>
    intro us h
    simp [constructURLs] at h
    rw [← h]
  | cons p rest ih =>
    intro us h
    rw [constructURLs] at h
    match hp : parse (host ++ p) with
    | none => rw [hp] at h; exact absurd h (by simp)
    | some u =>
      rw [hp] at h
      match hr : constructURLs parse host rest with
      | none => rw [hr] at h; exact absurd h (by simp)
      | some vs =>
        rw [hr] at h
        have : u :: vs = us := by
          simpa using h
        rw [← this, List.length_cons, ih vs hr]
        rfl

/-- The URL-list assembly of `main`: split the `--paths` flag on the backslash
separator, build a URL from each piece, and append the URLs built from the
optional `--paths_file` lines (`none` models an unset flag).  There is no
emptiness check anywhere on this path. -/
def assembleUrls (parse : String → Option String) (host : String) (pathsFlag : List Char)
    (pathsFile : Option (List String)) : Option (List String) :=
  match constructURLs parse host ((splitChar '\\' pathsFlag).map (fun cs => String.mk cs)) with
  | none => none
  | some urls =>
    match pathsFile with
    | none => some urls
    | some lines =>
      match constructURLs parse host lines with
      | none => none
      | some more => some (urls ++ more)

/-- Outcomes of the program after the URL list has been assembled, mirroring
`main` from the concurrency-cap clamp onward: a `log.Fatal` on invalid flag
input, a `log.Fatal` on a `Tester.Init` error, or a completed ramp. -/
inductive RunOutcome where
  | fatalInvalidInput
  | fatalInitError (e : InitError)
  | completed (stages : List Nat)
deriving Repr, DecidableEq

/-- The rest of `main` after URL assembly: clamp the concurrency cap at 512,
validate the error threshold, construct the tester and run `Init` on the
assembled URLs, then run the ramp, deciding continuation per stage from that
stage's results.  `stageResult` models the `StressResult` produced by the stage
at each concurrency. -/
def runAfterAssembly (probe : String → Option (Int × Nat)) (errThreshold : ℚ)
    (maxConcurrency : Nat) (style : RampStyle) (step : Nat)
    (stageResult : Nat → StressResult) (urls : List String) : RunOutcome :=
  let cap := if maxConcurrency > 512 then 512 else maxConcurrency
  if errThreshold ≤ 0 ∨ 1 < errThreshold then RunOutcome.fatalInvalidInput
  else
    match runInit probe urls with
    | Except.error e => RunOutcome.fatalInitError e
    | Except.ok _ =>
      RunOutcome.completed
        (runRamp style step cap (fun c => stressShouldContinue errThreshold (stageResult c)))

/-- C9 counterexample: handed an empty URL list, the program does not reject it
with an invalid-input error before constructing a Tester — it proceeds to
`Tester.Init`, which then fails with the no-successful-probe (`all requests
failed`) error.  There is no emptiness check in `main`. -/
theorem empty_url_list_reaches_init :
    runAfterAssembly (fun _ => none) (1 / 20 : ℚ) 8 RampStyle.doubling 5
        (fun _ => StressResult.mk []) ([] : List String)
      = RunOutcome.fatalInitError InitError.noSuccessfulProbe
    ∧ RunOutcome.fatalInitError InitError.noSuccessfulProbe ≠ RunOutcome.fatalInvalidInput := by
  constructor
  · rw [runAfterAssembly]
    norm_num
    rfl
  · decide

/-- C9 amended: the URL list assembled from the `--paths` flag and the optional
paths file is never empty when assembly succeeds — splitting the flag always
yields at least one path, so at least one URL (the bare host for an empty flag)
is constructed — hence the program never reaches `Init` or `Stress` with an
empty list, even though `main` contains no emptiness check and a directly
supplied empty list would reach `Init` (see the counterexample). -/
theorem assembled_urls_nonempty (parse : String → Option String) (host : String)
    (pathsFlag : List Char) (pathsFile : Option (List String)) (urls : List String)
    (h : assembleUrls parse host pathsFlag pathsFile = some urls) : urls ≠ [] := by
  rw [assembleUrls] at h
  match hc : constructURLs parse host ((splitChar '\\' pathsFlag).map (fun cs => String.mk cs)) with
  | none => rw [hc] at h; exact absurd h (by simp)
  | some base =>
    rw [hc] at h
    have hbase : base ≠ [] := by
      have hlen := constructURLs_length parse host _ base hc
      have hsplit : (splitChar '\\' pathsFlag).map (fun cs => String.mk cs) ≠ [] := by
        simp [splitChar_ne_nil]
      intro hb
      rw [hb] at hlen
      exact hsplit (List.eq_nil_of_length_eq_zero hlen.symm)
    match pathsFile with
    | none =>
      have : base = urls := by simpa using h
      rw [← this]
      exact hbase
    | some lines =>
      have h2 : (match constructURLs parse host lines with
          | none => none
          | some more => some (base ++ more)) = some urls := h
      match hm : constructURLs parse host lines with
      | none => rw [hm] at h2; exact absurd h2 (by simp)
      | some more =>
        rw [hm] at h2
        have : base ++ more = urls := by simpa using h2
        rw [← this]
        simp [hbase]

/-- Witness for C9's amended theorem: with an identity parser, host
`"http://h"`, an empty `--paths` flag and no paths file, assembly yields the
one-element list `["http://h"]`, which is non-empty. -/
theorem assembled_urls_nonempty_witness :
    assembleUrls (fun s => some s) "http://h" [] none = some ["http://h"]
    ∧ (["http://h"] : List String) ≠ [] :=
  ⟨by decide, assembled_urls_nonempty (fun s => some s) "http://h" [] none ["http://h"]
    (by decide)⟩

/-- Size of the random-input domain of Go's `rand.Int()` on 64-bit platforms:
uniform over `[0, 2^63)`. -/
def randDomainSize : Nat := 2 ^ 63

/-- The set of random inputs on which the index computation `x % n` of
`randomURL` selects position `j`. -/
def indexPreimage (n j : Nat) : Finset Nat :=
  (Finset.range randDomainSize).filter (fun x => x % n = j)

/-- The set of random inputs on which `randomURL` returns the URL `u`. -/
def urlPreimage (urls : List String) (u : String) : Finset Nat :=
  (Finset.range randDomainSize).filter (fun x => randomURL urls x = some u)

lemma filter_mod_Ico_block (n q s j : Nat) (hj : j < n) (hs : s ≤ n) :
    (Finset.Ico (n * q) (n * q + s)).filter (fun x => x % n = j)
      = if j < s then {n * q + j} else ∅ := by
  ext x
  simp only [Finset.mem_filter, Finset.mem_Ico]
  constructor
  · rintro ⟨⟨h1, h2⟩, h3⟩
    have hx : x = n * q + (x - n * q) := by omega
    have ht : x - n * q < s := by omega
    have hmod : x % n = x - n * q := by
      conv_lhs => rw [hx]
      rw [Nat.mul_add_mod]
      exact Nat.mod_eq_of_lt (by omega)
    have hxj : x = n * q + j := by omega
    rw [if_pos (by omega : j < s)]
    simp [hxj]
  · intro hx
    by_cases hjs : j < s
    · rw [if_pos hjs] at hx
      simp at hx
      subst hx
      refine ⟨⟨by omega, by omega⟩, ?_⟩
      rw [Nat.mul_add_mod]
      exact Nat.mod_eq_of_lt hj
    · rw [if_neg hjs] at hx
      simp at hx

lemma filter_mod_range_mul (n j : Nat) (hj : j < n) :
    ∀ q, ((Finset.range (n * q)).filter (fun x => x % n = j)).card = q := by
  intro q
  induction q with
  | zero => simp
  | succ q ih =>
    have hrw : n * (q + 1) = n * q + n := by ring
    rw [hrw, Finset.range_eq_Ico,
      ← Finset.Ico_union_Ico_eq_Ico (Nat.zero_le (n * q)) (Nat.le_add_right (n * q) n),
      Finset.filter_union,
      Finset.card_union_of_disjoint
        (Finset.disjoint_filter_filter (Finset.Ico_disjoint_Ico_consecutive 0 (n * q) (n * q + n))),
      ← Finset.range_eq_Ico, ih,
      filter_mod_Ico_block n q n j hj (le_refl n), if_pos hj]
    simp

lemma indexPreimage_card (n j : Nat) (hn : 0 < n) (hj : j < n) :
    (indexPreimage n j).card
      = randDomainSize / n + if j < randDomainSize % n then 1 else 0 := by
  have hmodlt : randDomainSize % n < n := Nat.mod_lt _ hn
  have hsplit : n * (randDomainSize / n) + randDomainSize % n = randDomainSize :=
    Nat.div_add_mod _ _
  unfold indexPreimage
  conv_lhs => rw [← hsplit]
  rw [Finset.range_eq_Ico,
    ← Finset.Ico_union_Ico_eq_Ico (Nat.zero_le (n * (randDomainSize / n)))
      (Nat.le_add_right (n * (randDomainSize / n)) (randDomainSize % n)),
    Finset.filter_union,
    Finset.card_union_of_disjoint
      (Finset.disjoint_filter_filter
        (Finset.Ico_disjoint_Ico_consecutive 0 (n * (randDomainSize / n))
          (n * (randDomainSize / n) + randDomainSize % n))),
    ← Finset.range_eq_Ico, filter_mod_range_mul n j hj,
    filter_mod_Ico_block n (randDomainSize / n) (randDomainSize % n) j hj (le_of_lt hmodlt)]
  by_cases hjm : j < randDomainSize % n
  · rw [if_pos hjm, if_pos hjm]
    simp
  · rw [if_neg hjm, if_neg hjm]
    simp

lemma randomURL_get (urls : List String) (x : Nat) (h : 0 < urls.length) (k : Nat)
    (hklen : k < urls.length) (hk : x % urls.length = k) :
    randomURL urls x = some (urls.get ⟨k, hklen⟩) := by
  subst hk
  unfold randomURL
  rw [dif_pos h]

lemma urlPreimage_abc_a : urlPreimage ["a", "b", "c"] "a" = indexPreimage 3 0 := by
  unfold urlPreimage indexPreimage
  apply Finset.filter_congr
  intro x _
  have hlen : 0 < (["a", "b", "c"] : List String).length := by decide
  have hcases : x % 3 = 0 ∨ x % 3 = 1 ∨ x % 3 = 2 := by omega
  rcases hcases with h | h | h
  · rw [randomURL_get ["a", "b", "c"] x hlen 0 (by decide) h, h]
    decide
  · rw [randomURL_get ["a", "b", "c"] x hlen 1 (by decide) h, h]
    decide
  · rw [randomURL_get ["a", "b", "c"] x hlen 2 (by decide) h, h]
    decide

lemma urlPreimage_abc_c : urlPreimage ["a", "b", "c"] "c" = indexPreimage 3 2 := by
  unfold urlPreimage indexPreimage
  apply Finset.filter_congr
  intro x _
  have hlen : 0 < (["a", "b", "c"] : List String).length := by decide
  have hcases : x % 3 = 0 ∨ x % 3 = 1 ∨ x % 3 = 2 := by omega
  rcases hcases with h | h | h
  · rw [randomURL_get ["a", "b", "c"] x hlen 0 (by decide) h, h]
    decide
  · rw [randomURL_get ["a", "b", "c"] x hlen 1 (by decide) h, h]
    decide
  · rw [randomURL_get ["a", "b", "c"] x hlen 2 (by decide) h, h]
    decide

/-- C8 counterexample: `randomURL` does not give every URL of a non-empty list
a preimage of exactly equal size over the uniform random-input domain
`[0, 2^63)`.  For the three-element list `["a", "b", "c"]`, `2^63 % 3 = 2`, so
the preimage of `"a"` has one more element than the preimage of `"c"`: the
`rand.Int() % n` construction has a modulo bias whenever `n` does not divide
`2^63`. -/
theorem randomURL_preimages_not_all_equal :
    ¬ ∀ u ∈ (["a", "b", "c"] : List String), ∀ v ∈ (["a", "b", "c"] : List String),
        (urlPreimage ["a", "b", "c"] u).card = (urlPreimage ["a", "b", "c"] v).card := by
  intro hall
  have h := hall "a" (by decide) "c" (by decide)
  rw [urlPreimage_abc_a, urlPreimage_abc_c,
    indexPreimage_card 3 0 (by decide) (by decide),
    indexPreimage_card 3 2 (by decide) (by decide),
    show randDomainSize % 3 = 2 by decide] at h
  norm_num at h

/-- C8 amended: the index `x % n` used by `randomURL` selects position `j < n`
on exactly `2^63 / n + 1` inputs when `j < 2^63 % n` and on exactly `2^63 / n`
inputs otherwise; hence the selection is uniform up to a bias of at most one
input value per position, and the preimages all have exactly equal size iff the
list length divides `2^63` (for example any power-of-two length); `randomURL`
itself returns the list element at that index. -/
theorem randomURL_preimage_card (n j : Nat) (hn : 0 < n) (hj : j < n) :
    ((indexPreimage n j).card
        = randDomainSize / n + if j < randDomainSize % n then 1 else 0)
    ∧ (n ∣ randDomainSize → (indexPreimage n j).card = randDomainSize / n)
    ∧ (∀ i, i < n → (indexPreimage n i).card ≤ (indexPreimage n j).card + 1)
    ∧ (∀ (urls : List String) (x : Nat), urls.length = n →
        ∃ hx : x % n < urls.length, randomURL urls x = some (urls.get ⟨x % n, hx⟩)) := by
  refine ⟨indexPreimage_card n j hn hj, ?_, ?_, ?_⟩
  · intro hd
    have h0 : randDomainSize % n = 0 := Nat.dvd_iff_mod_eq_zero.mp hd
    rw [indexPreimage_card n j hn hj, h0]
    simp
  · intro i hi
    rw [indexPreimage_card n i hn hi, indexPreimage_card n j hn hj]
    split_ifs <;> omega
  · intro urls x hlen
    have hpos : 0 < urls.length := by rw [hlen]; exact hn
    have hx : x % n < urls.length := by rw [hlen]; exact Nat.mod_lt x hn
    exact ⟨hx, randomURL_get urls x hpos (x % n) hx (by rw [hlen])⟩

/-- Witness for C8's amended theorem: for a list of length 4 (which divides
`2^63`) every position's preimage has exactly `2^63 / 4` elements. -/
theorem randomURL_preimage_card_witness :
    (indexPreimage 4 1).card = randDomainSize / 4 :=
  (randomURL_preimage_card 4 1 (by decide) (by decide)).2.1 ⟨2 ^ 61, by norm_num [randDomainSize]⟩
